import Mathlib

/-!
# go-acme: checking spec claims against a shallow embedding of the client

This file embeds, in Lean, the parts of the go-acme ACME client that the
checked claims concern: certificate renewal scheduling
(CertificateRenewalTime, unnamed/part_012), the certificate worker loop
(data_store.go), the signed-request retry loop and the nonce pool
(pkg/acme/api.go, client.go), Retry-After parsing (client.go), the HTTP-01
challenge responder (unnamed/part_014), JSON round-trips of persisted
records (certificate_data.go, unnamed/part_017), challenge setup and
teardown (challenges.go, data_store.go), and challenge selection
(pkg/acme/authorizations.go).

Conventions of the embedding:

* Instants and durations are integer numbers of seconds (`Int`);
  Go `time.Time.AddDate(0, 0, n)` is modelled as adding `n * 86400`
  seconds (exact for UTC times, which is what the client manipulates).
* Go `nil` pointers and absent values are `Option`; Go `(value, error)`
  pairs are `Except` or `Option`.
* Collaborator functions from the Go standard library or other modules
  (PKCS#8 codecs, X.509 parsing, HTTP-date parsing, the network) are
  parameters of the embedded definitions, never stubs with fixed output.
* Strings are Lean `String`; an empty string models an absent HTTP header,
  exactly as `http.Header.Get` returns `""` for a missing field.
-/

namespace GoAcme

/-! ## Basic data model -/

/-- An ACME identifier (`Identifier` in the Go sources): a type tag
(always "dns" in this client) and a value. -/
structure Identifier where
  itype : String
  value : String
deriving DecidableEq, Repr

/-- The fields of `x509.Certificate` that the embedded code reads:
the validity bounds of the leaf certificate, as seconds. -/
structure X509Cert where
  notBefore : Int
  notAfter : Int
deriving DecidableEq, Repr

/-- `CertificateData` (unnamed/part_012): the live fields. The
`PrivateKeyData` and `CertificateData` JSON carrier fields of the Go
struct are represented by the wire record `EncodedCertificateData`
defined with the round-trip claim below. `Key` and `Cert` abstract
`crypto.Signer` and `*x509.Certificate`. -/
structure CertificateData (Key Cert : Type) where
  name : String
  identifiers : List Identifier
  validity : Int
  privateKey : Option Key
  certificate : List Cert
deriving DecidableEq

/-- `CertificateData.LeafCertificate` (unnamed/part_012): the first
certificate of the chain, `nil` when the chain is empty. -/
def CertificateData.LeafCertificate (d : CertificateData Key Cert) : Option Cert :=
  d.certificate.head?

/-- `CertificateData.ContainsCertificate` (unnamed/part_012):
`c.PrivateKey != nil && len(c.Certificate) > 0`. -/
def CertificateData.ContainsCertificate (d : CertificateData Key Cert) : Bool :=
  d.privateKey.isSome && !d.certificate.isEmpty

/-- One hour in seconds. -/
def hour : Int := 3600

/-- One day in seconds; `AddDate(0, 0, n)` adds `n * day`. -/
def day : Int := 86400

/-! ## C1: certificate renewal time -/

/-- `CertificateRenewalTime` (unnamed/part_012 lines 122-131). The Go
function dereferences `data.LeafCertificate()` unconditionally and
panics on an empty chain; the worker only calls it with a non-empty
chain, and the `none` branch below is a junk value standing for that
panic. `data.Validity/2` is Go integer division (truncation). -/
def CertificateRenewalTime (d : CertificateData Key X509Cert) : Int :=
  match d.LeafCertificate with
  | none => 0
  | some leaf =>
    if d.validity > 1 then
      leaf.notAfter + day * max (d.validity.tdiv 2) 1
    else
      leaf.notAfter - 12 * hour

/-- The renewal instant claimed by the spec: the midpoint
`NotBefore + (NotAfter - NotBefore)/2` of the validity of the leaf. -/
def specMidpoint (leaf : X509Cert) : Int :=
  leaf.notBefore + (leaf.notAfter - leaf.notBefore).tdiv 2

/-- `CertificateWorker.main` (data_store.go line 148): the worker sleeps
before ordering only when the renewal time is strictly in the future,
so a renewal time that is not after `now` means an immediate renewal. -/
def workerWaitsForRenewal (renewalTime now : Int) : Bool :=
  decide (now < renewalTime)

/-- The renewal rule the code actually implements, stated from the
expiration time of the leaf and the configured validity. -/
def amendedRenewalTime (validity : Int) (leaf : X509Cert) : Int :=
  if validity > 1 then leaf.notAfter + day * max (validity.tdiv 2) 1
  else leaf.notAfter - 12 * hour

/-- C1 counterexample. Take a certificate with `NotBefore = 0`,
`NotAfter = 2 days` and configured validity 2 days, observed at
`now = 0`. More than 12 hours of validity remain, so the claim demands
the midpoint `1 day = 86400`; `CertificateRenewalTime` instead returns
`NotAfter + 1 day = 259200`, a time after the certificate expires. -/
theorem certificateRenewalTime_midpoint_counterexample :
    CertificateRenewalTime
        (⟨"example.com", [], 2, some (), [⟨0, 2 * day⟩]⟩ : CertificateData Unit X509Cert)
      = 259200
    ∧ specMidpoint ⟨0, 2 * day⟩ = 86400
    ∧ ¬ ((⟨0, 2 * day⟩ : X509Cert).notAfter - 0 < 12 * hour) := by
  refine ⟨?_, ?_, ?_⟩ <;>
    simp [CertificateRenewalTime, specMidpoint, hour, day,
      CertificateData.LeafCertificate, Int.tdiv]

/-- C1 (amended): for every certificate data with a leaf certificate,
the renewal time is `NotAfter + max(Validity/2, 1)` days when the
configured validity exceeds one day, and `NotAfter - 12h` otherwise;
in the latter case the worker renews immediately exactly when at most
12 hours of validity remain. -/
theorem certificateRenewalTime_spec {Key : Type}
    (d : CertificateData Key X509Cert) (leaf : X509Cert) (now : Int)
    (hleaf : d.LeafCertificate = some leaf) :
    CertificateRenewalTime d = amendedRenewalTime d.validity leaf
    ∧ (d.validity ≤ 1 →
        (workerWaitsForRenewal (CertificateRenewalTime d) now = false
          ↔ leaf.notAfter - now ≤ 12 * hour)) := by
  constructor
  · simp [CertificateRenewalTime, amendedRenewalTime, hleaf]
  · intro hv
    have hvle : ¬ d.validity > 1 := by omega
    simp only [CertificateRenewalTime, hleaf, if_neg hvle, workerWaitsForRenewal,
      decide_eq_false_iff_not, not_lt, hour]
    omega

/-- Witness for `certificateRenewalTime_spec` at a concrete input. -/
theorem certificateRenewalTime_spec_witness :
    CertificateRenewalTime
        (⟨"a", [], 0, some (), [⟨0, day⟩]⟩ : CertificateData Unit X509Cert)
      = amendedRenewalTime 0 ⟨0, day⟩
    ∧ ((0 : Int) ≤ 1 →
        (workerWaitsForRenewal
            (CertificateRenewalTime
              (⟨"a", [], 0, some (), [⟨0, day⟩]⟩ : CertificateData Unit X509Cert)) 40000 = false
          ↔ (⟨0, day⟩ : X509Cert).notAfter - 40000 ≤ 12 * hour)) := by
  have h := certificateRenewalTime_spec
    (⟨"a", [], 0, some (), [⟨0, day⟩]⟩ : CertificateData Unit X509Cert)
    ⟨0, day⟩ 40000 rfl
  exact ⟨h.1, fun _ => (h.2 (by decide)).trans (by simp)⟩

/-! ## C3: RequestCertificate resume-or-fresh -/

/-- Outcome of `DataStore.LoadCertificateData(name)` as
`Client.RequestCertificate` distinguishes it (certificates.go lines
26-29): a record, `ErrCertificateNotFound`, or any other error. -/
inductive LoadResult (Key Cert : Type) where
  | found (d : CertificateData Key Cert)
  | notFound
  | failure

/-- `Client.RequestCertificate` (certificates.go lines 25-51,
unnamed/part_018 lines 116-142): `none` models the early error return;
`some d` means the certificate worker is started with record `d`.
`reflect.DeepEqual` on identifier slices and `==` on validity are the
comparisons of lines 33-34. -/
def RequestCertificate (load : LoadResult Key Cert) (name : String)
    (identifiers : List Identifier) (validity : Int) :
    Option (CertificateData Key Cert) :=
  match load with
  | .failure => none
  | .notFound => some ⟨name, identifiers, validity, none, []⟩
  | .found d =>
      if d.identifiers = identifiers ∧ d.validity = validity then some d
      else some ⟨name, identifiers, validity, none, []⟩

/-- Modelled from the spec: `CertificateData.extractCopy` is called by
`CertificateWorker.onCertificateDataReady` (data_store.go line 223) but
its body is not under src/. Per spec section 4.7 the published snapshot
keeps the value of the record (identifiers cloned, private key shared,
chain moved) and the worker keeps a copy without the chain. -/
def extractCopy (d : CertificateData Key Cert) :
    CertificateData Key Cert × CertificateData Key Cert :=
  (d, { d with certificate := [] })

/-- What the start of `CertificateWorker.main` produces: the initial
renewal time, the immediately published snapshot (if any), and the
record the worker keeps. -/
structure WorkerInit (Key Cert : Type) where
  renewalTime : Int
  published : Option (CertificateData Key Cert)
  workerData : CertificateData Key Cert
deriving DecidableEq

/-- `CertificateWorker.main` lines 136-144: when the record loaded from
the data store contains a certificate, its renewal time is computed and
it is published immediately; otherwise the renewal time is `now` (renew
at once) and nothing is published. -/
def workerInit (d : CertificateData Key X509Cert) (now : Int) :
    WorkerInit Key X509Cert :=
  if d.ContainsCertificate then
    let rt := CertificateRenewalTime d
    let s := extractCopy d
    ⟨rt, some s.1, s.2⟩
  else ⟨now, none, d⟩

/-- C3: if the store holds a record with the requested name whose
identifiers are deep-equal to `ids` and whose validity is `validity`,
the worker is started with that record, and when the record contains a
certificate the worker publishes it immediately and schedules renewal
from it; in every other non-error case the worker starts with a fresh
record carrying the name, the identifiers and the validity, with no
private key and no chain. -/
theorem requestCertificate_resume_or_fresh {Key : Type}
    (load : LoadResult Key X509Cert) (name : String)
    (ids : List Identifier) (validity : Int) (now : Int) :
    (∀ d, load = .found d → d.identifiers = ids → d.validity = validity →
      RequestCertificate load name ids validity = some d
      ∧ (d.ContainsCertificate = true →
          (workerInit d now).published = some d
          ∧ (workerInit d now).renewalTime = CertificateRenewalTime d))
    ∧ (load = .notFound →
        RequestCertificate load name ids validity
          = some ⟨name, ids, validity, none, []⟩)
    ∧ (∀ d, load = .found d → (d.identifiers ≠ ids ∨ d.validity ≠ validity) →
        RequestCertificate load name ids validity
          = some ⟨name, ids, validity, none, []⟩) := by
  refine ⟨?_, ?_, ?_⟩
  · rintro d rfl hids hval
    refine ⟨by simp [RequestCertificate, hids, hval], fun hc => ?_⟩
    simp [workerInit, hc, extractCopy]
  · rintro rfl; rfl
  · rintro d rfl h
    have : ¬ (d.identifiers = ids ∧ d.validity = validity) := by tauto
    simp [RequestCertificate, this]

/-- Witness for `requestCertificate_resume_or_fresh`: a stored record
with matching identifiers and validity that contains a certificate. -/
theorem requestCertificate_resume_or_fresh_witness :
    RequestCertificate
        (.found (⟨"w", [⟨"dns", "example.org"⟩], 7, some (), [⟨0, 7 * day⟩]⟩ :
          CertificateData Unit X509Cert))
        "w" [⟨"dns", "example.org"⟩] 7
      = some ⟨"w", [⟨"dns", "example.org"⟩], 7, some (), [⟨0, 7 * day⟩]⟩
    ∧ (workerInit
          (⟨"w", [⟨"dns", "example.org"⟩], 7, some (), [⟨0, 7 * day⟩]⟩ :
            CertificateData Unit X509Cert) 5).published
      = some ⟨"w", [⟨"dns", "example.org"⟩], 7, some (), [⟨0, 7 * day⟩]⟩ := by
  have h := (requestCertificate_resume_or_fresh
    (.found (⟨"w", [⟨"dns", "example.org"⟩], 7, some (), [⟨0, 7 * day⟩]⟩ :
      CertificateData Unit X509Cert))
    "w" [⟨"dns", "example.org"⟩] 7 5).1
    ⟨"w", [⟨"dns", "example.org"⟩], 7, some (), [⟨0, 7 * day⟩]⟩ rfl rfl rfl
  exact ⟨h.1, (h.2 (by decide)).1⟩

/-! ## C4: worker backoff and fatal error -/

/-- Events a certificate worker emits on its event channel. -/
inductive WEvent where
  | errorEvent
  | certEvent
deriving DecidableEq, Repr

/-- How the retry loop of `CertificateWorker.main` ends: a successful
order, a fatal error (no current certificate), or fuel exhaustion (the
Go loop itself is unbounded). -/
inductive RetryEnd where
  | ordered
  | fatal
  | spent
deriving DecidableEq, Repr

/-- Trace of one run of the retry loop: the delays waited (seconds), the
events emitted, whether the worker function returned (its deferred
`close(eventChan)` then closes the event channel), and the ending. -/
structure RetryResult where
  waits : List Int
  events : List WEvent
  terminated : Bool
  outcome : RetryEnd
deriving DecidableEq, Repr

/-- The `retryLoop` of `CertificateWorker.main` (data_store.go lines
157-181). `fails k` tells whether the k-th `orderCertificate` call of
this loop fails, `contains k` whether `certData.ContainsCertificate()`
holds when it does. On a failure without a current certificate the
worker sends one error event and returns; otherwise it waits
`retryDelay` and doubles it, capped at 60 seconds. Stop-channel and
context cancellation are not modelled (every wait completes). -/
def retryLoopRun (fails contains : Nat → Bool) :
    Nat → Nat → Int → RetryResult
  | 0, _, _ => ⟨[], [], false, .spent⟩
  | fuel + 1, k, retryDelay =>
    if fails k then
      if !(contains k) then ⟨[], [.errorEvent], true, .fatal⟩
      else
        let r := retryLoopRun fails contains fuel (k + 1) (min (retryDelay * 2) 60)
        ⟨retryDelay :: r.waits, r.events, r.terminated, r.outcome⟩
    else ⟨[], [], false, .ordered⟩

/-- The retry loop as entered from `main`: first attempt index 0 and
`retryDelay := time.Second` (data_store.go line 158). -/
def workerOrderPhase (fails contains : Nat → Bool) (fuel : Nat) : RetryResult :=
  retryLoopRun fails contains fuel 0 1

theorem pow_min_shift (j : Nat) (d : Int) :
    min ((2 : Int) ^ j * min (d * 2) 60) 60 = min ((2 : Int) ^ (j + 1) * d) 60 := by
  have hp : (0 : Int) < 2 ^ j := pow_pos (by norm_num) j
  have hpow : (2 : Int) ^ (j + 1) * d = 2 ^ j * (d * 2) := by ring
  rcases le_total (d * 2) 60 with h | h
  · rw [min_eq_left h, hpow]
  · rw [min_eq_right h, hpow]
    have h1 : (60 : Int) ≤ 2 ^ j * 60 := by nlinarith
    have h2 : (2 : Int) ^ j * 60 ≤ 2 ^ j * (d * 2) :=
      mul_le_mul_of_nonneg_left h (le_of_lt hp)
    rw [min_eq_right h1, min_eq_right (le_trans h1 h2)]

theorem retryLoopRun_all_fail (fails contains : Nat → Bool) :
    ∀ (n fuel k : Nat) (d : Int), n < fuel → d ≤ 60 →
      (∀ j, j < n → fails (k + j) = true ∧ contains (k + j) = true) →
      fails (k + n) = false →
      retryLoopRun fails contains fuel k d =
        ⟨(List.range n).map (fun j => min ((2 : Int) ^ j * d) 60), [], false, .ordered⟩ := by
  intro n
  induction n with
  | zero =>
    intro fuel k d hfuel _ _ hstop
    obtain ⟨f, rfl⟩ : ∃ f, fuel = f + 1 := ⟨fuel - 1, by omega⟩
    rw [Nat.add_zero] at hstop
    simp [retryLoopRun, hstop]
  | succ n ih =>
    intro fuel k d hfuel hd hall hstop
    obtain ⟨f, rfl⟩ : ∃ f, fuel = f + 1 := ⟨fuel - 1, by omega⟩
    have hk := hall 0 (by omega)
    rw [Nat.add_zero] at hk
    have hrec := ih f (k + 1) (min (d * 2) 60) (by omega) (by omega)
      (fun j hj => by
        have := hall (j + 1) (by omega)
        rwa [Nat.add_comm j 1, ← Nat.add_assoc] at this)
      (by rw [Nat.add_comm n 1, ← Nat.add_assoc] at hstop; exact hstop)
    simp only [retryLoopRun, hk.1, hk.2, Bool.not_true, if_true, Bool.false_eq_true,
      if_false, hrec]
    simp only [RetryResult.mk.injEq, and_true]
    rw [List.range_succ_eq_map, List.map_cons, List.map_map]
    congr 1
    · rw [pow_zero, one_mul, min_eq_left hd]
    · exact List.map_congr_left fun j _ => pow_min_shift j d

theorem retryLoopRun_fatal (fails contains : Nat → Bool) :
    ∀ (n fuel k : Nat) (d : Int), n < fuel → d ≤ 60 →
      (∀ j, j < n → fails (k + j) = true ∧ contains (k + j) = true) →
      fails (k + n) = true → contains (k + n) = false →
      retryLoopRun fails contains fuel k d =
        ⟨(List.range n).map (fun j => min ((2 : Int) ^ j * d) 60),
          [.errorEvent], true, .fatal⟩ := by
  intro n
  induction n with
  | zero =>
    intro fuel k d hfuel _ _ hfail hcont
    obtain ⟨f, rfl⟩ : ∃ f, fuel = f + 1 := ⟨fuel - 1, by omega⟩
    rw [Nat.add_zero] at hfail hcont
    simp [retryLoopRun, hfail, hcont]
  | succ n ih =>
    intro fuel k d hfuel hd hall hfail hcont
    obtain ⟨f, rfl⟩ : ∃ f, fuel = f + 1 := ⟨fuel - 1, by omega⟩
    have hk := hall 0 (by omega)
    rw [Nat.add_zero] at hk
    have hrec := ih f (k + 1) (min (d * 2) 60) (by omega) (by omega)
      (fun j hj => by
        have := hall (j + 1) (by omega)
        rwa [Nat.add_comm j 1, ← Nat.add_assoc] at this)
      (by rw [Nat.add_comm n 1, ← Nat.add_assoc] at hfail; exact hfail)
      (by rw [Nat.add_comm n 1, ← Nat.add_assoc] at hcont; exact hcont)
    simp only [retryLoopRun, hk.1, hk.2, Bool.not_true, if_true, Bool.false_eq_true,
      if_false, hrec]
    simp only [RetryResult.mk.injEq, and_true]
    rw [List.range_succ_eq_map, List.map_cons, List.map_map]
    congr 1
    · rw [pow_zero, one_mul, min_eq_left hd]
    · exact List.map_congr_left fun j _ => pow_min_shift j d

theorem min_cap_double (j : Nat) :
    min (2 * min ((2 : Int) ^ j) 60) 60 = min ((2 : Int) ^ (j + 1)) 60 := by
  have hp : (0 : Int) < 2 ^ j := pow_pos (by norm_num) j
  have hs : (2 : Int) ^ (j + 1) = 2 * 2 ^ j := by ring
  rcases le_total ((2 : Int) ^ j) 60 with h | h
  · rw [min_eq_left h, hs]
  · have h2 : (60 : Int) ≤ 2 * 2 ^ j := by omega
    rw [min_eq_right h, hs, min_eq_right h2]
    norm_num

/-- C4: whenever an order attempt fails, a worker with no current
certificate emits exactly one error event and terminates (its deferred
close then closes the event channel), the loop having made no further
attempt; a worker with a current certificate emits nothing, does not
terminate, and its waits before the successive retries start at 1
second, double after every consecutive failure, and never exceed 60
seconds. -/
theorem worker_backoff_and_single_error (fails contains : Nat → Bool)
    (fuel n k : Nat) :
    ((∀ j, j < k → fails j = true ∧ contains j = true) →
      fails k = true → contains k = false → k < fuel →
        (workerOrderPhase fails contains fuel).events = [.errorEvent]
        ∧ (workerOrderPhase fails contains fuel).terminated = true
        ∧ (workerOrderPhase fails contains fuel).waits.length = k)
    ∧ ((∀ j, j < n → fails j = true ∧ contains j = true) →
        fails n = false → n < fuel →
        (workerOrderPhase fails contains fuel).events = []
        ∧ (workerOrderPhase fails contains fuel).terminated = false
        ∧ (workerOrderPhase fails contains fuel).waits
            = (List.range n).map (fun j => min ((2 : Int) ^ j) 60)
        ∧ (∀ w ∈ (workerOrderPhase fails contains fuel).waits, 1 ≤ w ∧ w ≤ 60)
        ∧ (0 < n → (workerOrderPhase fails contains fuel).waits.head? = some 1)
        ∧ (∀ j, j + 1 < n →
            (workerOrderPhase fails contains fuel).waits.getD (j + 1) 0
              = min (2 * (workerOrderPhase fails contains fuel).waits.getD j 0) 60)) := by
  constructor
  · intro hall hfail hcont hfuel
    have h := retryLoopRun_fatal fails contains k fuel 0 1 hfuel (by norm_num)
      (fun j hj => by simpa using hall j hj) (by simpa using hfail)
      (by simpa using hcont)
    rw [workerOrderPhase, h]
    simp
  · intro hall hstop hfuel
    have h := retryLoopRun_all_fail fails contains n fuel 0 1 hfuel (by norm_num)
      (fun j hj => by simpa using hall j hj) (by simpa using hstop)
    rw [workerOrderPhase, h]
    have hwaits : ((List.range n).map (fun j => min ((2 : Int) ^ j * 1) 60))
        = (List.range n).map (fun j => min ((2 : Int) ^ j) 60) :=
      List.map_congr_left fun j _ => by rw [mul_one]
    refine ⟨rfl, rfl, hwaits, ?_, ?_, ?_⟩
    · intro w hw
      rw [hwaits] at hw
      obtain ⟨j, _, rfl⟩ := List.mem_map.mp hw
      have hp : (0 : Int) < 2 ^ j := pow_pos (by norm_num) j
      constructor
      · have : (1 : Int) ≤ 2 ^ j := by omega
        omega
      · omega
    · intro hn
      obtain ⟨m, rfl⟩ : ∃ m, n = m + 1 := ⟨n - 1, by omega⟩
      rw [hwaits, List.range_succ_eq_map, List.map_cons]
      simp
    · intro j hj
      rw [hwaits]
      have hj1 : j < n := by omega
      rw [List.getD_eq_getElem?_getD, List.getD_eq_getElem?_getD,
        List.getElem?_map, List.getElem?_map, List.getElem?_range hj,
        List.getElem?_range hj1]
      simpa using (min_cap_double j).symm

/-- Witness for `worker_backoff_and_single_error`: two failed attempts
with a current certificate wait 1 s then 2 s; a failed attempt without
one yields a single error event after one backoff wait. -/
theorem worker_backoff_and_single_error_witness :
    ((workerOrderPhase (fun j => decide (j < 2)) (fun _ => true) 3).events = []
      ∧ (workerOrderPhase (fun j => decide (j < 2)) (fun _ => true) 3).waits
          = (List.range 2).map (fun j => min ((2 : Int) ^ j) 60))
    ∧ ((workerOrderPhase (fun _ => true) (fun j => decide (j < 1)) 3).events
          = [.errorEvent]
      ∧ (workerOrderPhase (fun _ => true) (fun j => decide (j < 1)) 3).terminated
          = true) := by
  constructor
  · have h := (worker_backoff_and_single_error (fun j => decide (j < 2))
      (fun _ => true) 3 2 0).2
      (fun j hj => ⟨decide_eq_true hj, rfl⟩) (by decide) (by omega)
    exact ⟨h.1, h.2.2.1⟩
  · have h := (worker_backoff_and_single_error (fun _ => true)
      (fun j => decide (j < 1)) 3 0 1).1
      (fun j hj => ⟨rfl, decide_eq_true hj⟩) rfl (by decide) (by omega)
    exact ⟨h.1, h.2.1⟩

/-! ## C5: Retry-After parsing -/

/-- Value of a decimal digit character, `none` for any other character. -/
def decDigitVal? (c : Char) : Option Nat :=
  if ('0' ≤ c ∧ c ≤ '9') then some (c.toNat - '0'.toNat) else none

/-- Decimal accumulation over a digit list; `none` on any non-digit. -/
def decNatAux : List Char → Nat → Option Nat
  | [], acc => some acc
  | c :: cs, acc =>
    match decDigitVal? c with
    | some d => decNatAux cs (acc * 10 + d)
    | none => none

/-- Go `strconv.ParseInt(s, 10, 64)`: an optional sign followed by a
non-empty run of decimal digits, rejected when the value leaves the
int64 range (Go then returns a range error, which `waitDelay` treats
like any parse failure). -/
def goParseInt64 (s : String) : Option Int :=
  match s.data with
  | [] => none
  | c :: cs =>
    let p : Bool × List Char :=
      if c = '-' then (true, cs)
      else if c = '+' then (false, cs)
      else (false, c :: cs)
    match p.2 with
    | [] => none
    | _ =>
      match decNatAux p.2 0 with
      | none => none
      | some n =>
        let v : Int := if p.1 then -(n : Int) else (n : Int)
        if v < -(2 ^ 63) ∨ 2 ^ 63 - 1 < v then none else some v

/-- Two-complement wraparound of Go int64 arithmetic, as in the
multiplication `time.Duration(i) * time.Second`. -/
def wrapInt64 (x : Int) : Int :=
  (x + 2 ^ 63) % 2 ^ 64 - 2 ^ 63

/-- Saturation of `time.Time.Sub` (hence `time.Until`) at the
`time.Duration` bounds: when the difference does not fit in an int64
of nanoseconds, the maximum or minimum duration is returned. -/
def clampInt64 (x : Int) : Int :=
  max (-(2 ^ 63)) (min (2 ^ 63 - 1) x)

/-- `time.Second`: one second as a Duration, in nanoseconds. -/
def timeSecond : Int := 1000000000

/-- The HTTP-date branch of `Client.waitDelay` (client.go lines
204-209): `time.Parse(http.TimeFormat, s)` is the collaborator
`parseHTTPDate` (the parsed instant, in nanoseconds since the epoch,
like `now`); on success the delay is `time.Until(t)`, which saturates
at the Duration bounds, otherwise the 1 second default. -/
def waitDelayHTTPDate (parseHTTPDate : String → Option Int) (now : Int)
    (s : String) : Int :=
  match parseHTTPDate s with
  | some t => clampInt64 (t - now)
  | none => timeSecond

/-- `Client.waitDelay` (client.go lines 189-210), returning the delay
as a Go `time.Duration`, an int64 of nanoseconds. `retryAfter` is the
value of the `Retry-After` header, `""` when the header is absent. In
the integer branch the source computes `time.Duration(i) * time.Second`:
the conversion is the identity on the int64 `i` and the multiplication
wraps around int64. -/
def waitDelay (parseHTTPDate : String → Option Int) (now : Int)
    (retryAfter : String) : Int :=
  if retryAfter = "" then timeSecond
  else
    match goParseInt64 retryAfter with
    | some i =>
      if 0 ≤ i then wrapInt64 (i * timeSecond)
      else waitDelayHTTPDate parseHTTPDate now retryAfter
    | none => waitDelayHTTPDate parseHTTPDate now retryAfter

theorem wrapInt64_eq_self (x : Int) (h1 : -(2 ^ 63) ≤ x) (h2 : x ≤ 2 ^ 63 - 1) :
    wrapInt64 x = x := by
  unfold wrapInt64
  have e3 : (2 : Int) ^ 63 = 9223372036854775808 := by norm_num
  have e4 : (2 : Int) ^ 64 = 18446744073709551616 := by norm_num
  rw [e3, e4]
  rw [e3] at h1 h2
  omega

/-- C5 counterexample: the header "10000000000" parses as the
non-negative integer 10^10, yet the program does not wait 10^10
seconds: `time.Duration(10^10) * time.Second` wraps int64 to the
negative duration -8446744073709551616 ns, so the timer fires at
once. -/
theorem waitDelay_wrap_counterexample :
    goParseInt64 "10000000000" = some 10000000000
    ∧ (0 : Int) ≤ 10000000000
    ∧ waitDelay (fun _ => none) 0 "10000000000" = -8446744073709551616
    ∧ waitDelay (fun _ => none) 0 "10000000000" ≠ 10000000000 * timeSecond
    ∧ waitDelay (fun _ => none) 0 "10000000000" < 0 := by
  have h1 : goParseInt64 "10000000000" = some 10000000000 := by decide
  have h2 : waitDelay (fun _ => none) 0 "10000000000" = -8446744073709551616 := by
    have hs : ("10000000000" : String) ≠ "" := by decide
    simp only [waitDelay, if_neg hs, h1]
    rw [if_pos (by norm_num : (0 : Int) ≤ 10000000000)]
    unfold wrapInt64 timeSecond
    norm_num
  refine ⟨h1, by norm_num, h2, ?_, ?_⟩
  · rw [h2]
    unfold timeSecond
    norm_num
  · rw [h2]
    norm_num

/-- C5 (amended): the polling delay is the Go Duration built from the
`Retry-After` header: a non-negative integer `i` gives the
int64-wrapping product `i * time.Second`, equal to `i` seconds
whenever `i ≤ 9223372036`; an HTTP-date gives the time remaining
until that date, saturated at the Duration bounds; a missing or
unparseable header gives the 1 second default. -/
theorem waitDelay_spec (parseHTTPDate : String → Option Int) (now : Int)
    (s : String) :
    (s = "" → waitDelay parseHTTPDate now s = timeSecond)
    ∧ (∀ i, goParseInt64 s = some i → 0 ≤ i →
        waitDelay parseHTTPDate now s = wrapInt64 (i * timeSecond)
        ∧ (i ≤ 9223372036 → waitDelay parseHTTPDate now s = i * timeSecond))
    ∧ (s ≠ "" → (goParseInt64 s = none ∨ ∃ i, goParseInt64 s = some i ∧ i < 0) →
        ∀ t, parseHTTPDate s = some t →
          waitDelay parseHTTPDate now s = clampInt64 (t - now))
    ∧ (s ≠ "" → (goParseInt64 s = none ∨ ∃ i, goParseInt64 s = some i ∧ i < 0) →
        parseHTTPDate s = none → waitDelay parseHTTPDate now s = timeSecond) := by
  refine ⟨fun hs => by simp [waitDelay, hs], ?_, ?_, ?_⟩
  · intro i hi h0
    have hs : s ≠ "" := by
      rintro rfl
      simp [goParseInt64] at hi
    have hv : waitDelay parseHTTPDate now s = wrapInt64 (i * timeSecond) := by
      simp [waitDelay, hs, hi, h0]
    refine ⟨hv, fun hle => ?_⟩
    rw [hv]
    apply wrapInt64_eq_self
    · have : (0 : Int) ≤ i * timeSecond := by
        unfold timeSecond
        positivity
      have he : -(2 : Int) ^ 63 ≤ 0 := by norm_num
      omega
    · unfold timeSecond
      have : i * 1000000000 ≤ 9223372036 * 1000000000 := by
        apply mul_le_mul_of_nonneg_right hle
        norm_num
      have he : (9223372036 : Int) * 1000000000 ≤ 2 ^ 63 - 1 := by norm_num
      omega
  · intro hs hint t ht
    rcases hint with h | ⟨i, hi, hneg⟩
    · simp [waitDelay, hs, h, waitDelayHTTPDate, ht]
    · simp [waitDelay, hs, hi, waitDelayHTTPDate, ht, not_le.mpr hneg]
  · intro hs hint ht
    rcases hint with h | ⟨i, hi, hneg⟩
    · simp [waitDelay, hs, h, waitDelayHTTPDate, ht]
    · simp [waitDelay, hs, hi, waitDelayHTTPDate, ht, not_le.mpr hneg]

/-- Witness for `waitDelay_spec`: the integer form "10" (no wrap), the
date form on an unparseable-as-integer header, and the missing-header
default. -/
theorem waitDelay_spec_witness :
    waitDelay (fun _ => none) 0 "10" = 10 * timeSecond
    ∧ waitDelay (fun s => if s = "later" then some 5 else none) 2 "later"
        = clampInt64 (5 - 2)
    ∧ waitDelay (fun _ => none) 0 "" = timeSecond := by
  refine ⟨?_, ?_, ?_⟩
  · exact ((waitDelay_spec (fun _ => none) 0 "10").2.1 10 (by decide)
      (by decide)).2 (by decide)
  · exact (waitDelay_spec (fun s => if s = "later" then some 5 else none) 2
      "later").2.2.1 (by decide) (Or.inl (by decide)) 5 (by decide)
  · exact (waitDelay_spec (fun _ => none) 0 "").1 rfl

/-! ## C6: HTTP-01 challenge responder -/

/-- The token registry of `HTTPChallengeSolver` (`challenges
map[string]struct{}`, unnamed/part_014), as a list of distinct keys. -/
def addToken (challenges : List String) (token : String) : List String :=
  if token ∈ challenges then challenges else token :: challenges

/-- `HTTPChallengeSolver.discardToken` (unnamed/part_014 lines 248-252). -/
def discardToken (challenges : List String) (token : String) : List String :=
  challenges.filter (fun t => t ≠ token)

/-- Status code and body of an HTTP reply written by the responder. -/
structure HTTPReply where
  status : Nat
  body : String
deriving DecidableEq, Repr

/-- `HTTPChallengeSolver.hChallenge` (unnamed/part_014 lines 254-287):
`reply(status, format, args...)` writes the status and the formatted
body followed by a newline. An unknown token gets `400 unknown token`;
a registered one gets `200` with `"{token}.{thumbprint}"` and the
trailing newline. -/
def hChallenge (challenges : List String) (accountThumbprint token : String) :
    HTTPReply :=
  if token ∈ challenges then ⟨200, token ++ "." ++ accountThumbprint ++ "\n"⟩
  else ⟨400, "unknown token\n"⟩

/-- C6: a registered token is answered with status 200 and body
`token ++ "." ++ thumbprint ++ "\n"`; an unregistered one with status
400 and body `"unknown token\n"`; registering and discarding via
`addToken`/`discardToken` moves a token between the two cases. -/
theorem hChallenge_spec (challenges : List String) (thumb token : String) :
    (token ∈ challenges →
      hChallenge challenges thumb token = ⟨200, token ++ "." ++ thumb ++ "\n"⟩)
    ∧ (token ∉ challenges →
      hChallenge challenges thumb token = ⟨400, "unknown token\n"⟩)
    ∧ hChallenge (addToken challenges token) thumb token
        = ⟨200, token ++ "." ++ thumb ++ "\n"⟩
    ∧ hChallenge (discardToken challenges token) thumb token
        = ⟨400, "unknown token\n"⟩ := by
  refine ⟨fun h => by simp [hChallenge, h], fun h => by simp [hChallenge, h], ?_, ?_⟩
  · have hmem : token ∈ addToken challenges token := by
      by_cases h : token ∈ challenges <;> simp [addToken, h]
    simp [hChallenge, hmem]
  · have hmem : token ∉ discardToken challenges token := by
      simp [discardToken]
    simp [hChallenge, hmem]

/-- Witness for `hChallenge_spec` on a concrete registry. -/
theorem hChallenge_spec_witness :
    hChallenge ["tok"] "thumb" "tok" = ⟨200, "tok" ++ "." ++ "thumb" ++ "\n"⟩
    ∧ hChallenge ["other"] "thumb" "tok" = ⟨400, "unknown token\n"⟩ := by
  exact ⟨(hChallenge_spec ["tok"] "thumb" "tok").1 (by decide),
    (hChallenge_spec ["other"] "thumb" "tok").2.1 (by decide)⟩

/-! ## C8: challenge setup and teardown -/

/-- `ChallengeTypeHTTP01` (challenges.go line 18). -/
def ChallengeTypeHTTP01 : String := "http-01"

/-- `ChallengeTypeDNS01` (challenges.go line 19). -/
def ChallengeTypeDNS01 : String := "dns-01"

/-- `ChallengeStatusValid` (challenges.go line 27). -/
def ChallengeStatusValid : String := "valid"

/-- `Challenge` (challenges.go lines 31-47): type, URL, status, and the
token of its type-specific data. -/
structure Challenge where
  ctype : String
  url : String
  status : String
  token : String
deriving DecidableEq, Repr

/-- Observable calls made while solving a challenge. -/
inductive SolveAction where
  | addTok (token : String)
  | discardTok (token : String)
  | submitChall (url : String)
  | waitChall (url : String)
deriving DecidableEq, Repr

/-- `Client.setupChallenge` (challenges.go lines 74-87, 104-108,
116-119): HTTP-01 registers the token with the solver and succeeds;
DNS-01 fails with "not implemented yet"; an unknown type fails. The
boolean is success, the list the calls performed. -/
def setupChallenge (ch : Challenge) : Bool × List SolveAction :=
  if ch.ctype = ChallengeTypeHTTP01 then (true, [.addTok ch.token])
  else (false, [])

/-- `Client.teardownChallenge` (challenges.go lines 89-102, 110-114,
121-124): HTTP-01 discards the token and succeeds. -/
def teardownChallenge (ch : Challenge) : Bool × List SolveAction :=
  if ch.ctype = ChallengeTypeHTTP01 then (true, [.discardTok ch.token])
  else (false, [])

/-- Outcomes of the collaborator calls inside `solveChallenge`:
`Client.submitChallenge` and `Client.waitForChallengeValid` (the latter
false on invalid challenge, interruption, or timeout alike). -/
structure SolveEnv where
  submitOk : Bool
  waitOk : Bool
deriving DecidableEq, Repr

/-- `CertificateWorker.solveChallenge` (data_store.go lines 306-331):
setup, then a deferred teardown that runs on every later return path,
then challenge submission and the wait for validity. -/
def solveChallenge (ch : Challenge) (env : SolveEnv) : Bool × List SolveAction :=
  match setupChallenge ch with
  | (false, acts) => (false, acts)
  | (true, acts) =>
    let td := (teardownChallenge ch).2
    if !env.submitOk then (false, acts ++ [.submitChall ch.url] ++ td)
    else if !env.waitOk then
      (false, acts ++ [.submitChall ch.url, .waitChall ch.url] ++ td)
    else (true, acts ++ [.submitChall ch.url, .waitChall ch.url] ++ td)

/-- C8: in every execution of `solveChallenge` in which the setup
succeeds, the token is discarded exactly once before the function
returns, on the success path and on every failure path; the setup call
is first and the discard is last. -/
theorem solveChallenge_discard_once (ch : Challenge) (env : SolveEnv)
    (hsetup : (setupChallenge ch).1 = true) :
    (solveChallenge ch env).2.count (.discardTok ch.token) = 1
    ∧ (solveChallenge ch env).2.head? = some (.addTok ch.token)
    ∧ (solveChallenge ch env).2.getLast? = some (.discardTok ch.token) := by
  have hty : ch.ctype = ChallengeTypeHTTP01 := by
    by_contra h
    simp [setupChallenge, h] at hsetup
  obtain ⟨submitOk, waitOk⟩ := env
  cases submitOk <;> cases waitOk <;>
    simp [solveChallenge, setupChallenge, teardownChallenge, hty, List.count_cons]

/-- Witness for `solveChallenge_discard_once` on a failing submission. -/
theorem solveChallenge_discard_once_witness :
    (solveChallenge ⟨"http-01", "u", "pending", "tok"⟩ ⟨false, false⟩).2.count
        (.discardTok "tok") = 1
    ∧ (solveChallenge ⟨"http-01", "u", "pending", "tok"⟩ ⟨true, true⟩).2.count
        (.discardTok "tok") = 1 := by
  exact ⟨(solveChallenge_discard_once ⟨"http-01", "u", "pending", "tok"⟩
      ⟨false, false⟩ (by decide)).1,
    (solveChallenge_discard_once ⟨"http-01", "u", "pending", "tok"⟩
      ⟨true, true⟩ (by decide)).1⟩

/-! ## C9: challenge selection -/

/-- `Authorization.findChallenge` (pkg/acme/authorizations.go lines
30-38): the first challenge of the given type. -/
def findChallenge (cType : String) (chs : List Challenge) : Option Challenge :=
  chs.find? (fun c => c.ctype = cType)

/-- `Client.selectAuthorizationChallenge` (pkg/acme/authorizations.go
lines 51-59): the HTTP-01 challenge when the HTTP challenge solver is
configured and the authorization has one, otherwise the DNS-01
challenge. -/
def selectAuthorizationChallenge (solverEnabled : Bool) (chs : List Challenge) :
    Option Challenge :=
  if solverEnabled then
    match findChallenge ChallengeTypeHTTP01 chs with
    | some ch => some ch
    | none => findChallenge ChallengeTypeDNS01 chs
  else findChallenge ChallengeTypeDNS01 chs

/-- Result of `CertificateWorker.validateAuthorization`. -/
inductive ValidateResult where
  | ok
  | unsupported (msg : String)
  | solveFailed
  | authWaitFailed
deriving DecidableEq, Repr

/-- Outcomes of the collaborator calls inside `validateAuthorization`. -/
structure ValidateEnv where
  solveEnv : SolveEnv
  waitAuthOk : Bool
deriving DecidableEq, Repr

/-- `CertificateWorker.validateAuthorization` (data_store.go lines
279-304): select a challenge (failing when there is none), skip setup
and submission entirely when it is already valid, otherwise solve it
and wait for the authorization. -/
def validateAuthorization (solverEnabled : Bool) (chs : List Challenge)
    (env : ValidateEnv) : ValidateResult × List SolveAction :=
  match selectAuthorizationChallenge solverEnabled chs with
  | none => (.unsupported "no supported challenge available", [])
  | some ch =>
    if ch.status = ChallengeStatusValid then (.ok, [])
    else
      match solveChallenge ch env.solveEnv with
      | (false, acts) => (.solveFailed, acts)
      | (true, acts) =>
        if env.waitAuthOk then (.ok, acts) else (.authWaitFailed, acts)

/-- C9 counterexample: with the HTTP challenge solver enabled and an
authorization whose only challenge is DNS-01, the selection returns
that DNS-01 challenge, not an HTTP-01 challenge, refuting "returns the
HTTP-01 challenge if and only if the responder is enabled". -/
theorem selectAuthorizationChallenge_counterexample :
    selectAuthorizationChallenge true [⟨ChallengeTypeDNS01, "u", "pending", "t"⟩]
      = some ⟨ChallengeTypeDNS01, "u", "pending", "t"⟩
    ∧ ¬ (∃ ch,
        selectAuthorizationChallenge true [⟨ChallengeTypeDNS01, "u", "pending", "t"⟩]
          = some ch ∧ ch.ctype = ChallengeTypeHTTP01) := by
  refine ⟨by decide, ?_⟩
  rintro ⟨ch, hch, hty⟩
  rw [show selectAuthorizationChallenge true
      [⟨ChallengeTypeDNS01, "u", "pending", "t"⟩]
      = some ⟨ChallengeTypeDNS01, "u", "pending", "t"⟩ from by decide] at hch
  injection hch with h
  subst h
  exact absurd hty (by decide)

/-- C9 (amended): the HTTP-01 challenge is returned iff the responder
is enabled and the authorization has one; otherwise the DNS-01
challenge (possibly none) is returned; with no returned challenge,
validating the authorization fails with the "no supported challenge
available" error without any action; a selected challenge that is
already valid skips setup and submission entirely. -/
theorem selectAuthorizationChallenge_spec (enabled : Bool)
    (chs : List Challenge) (env : ValidateEnv) :
    (∀ ch, enabled = true → findChallenge ChallengeTypeHTTP01 chs = some ch →
      selectAuthorizationChallenge enabled chs = some ch)
    ∧ ((enabled = false ∨ findChallenge ChallengeTypeHTTP01 chs = none) →
        selectAuthorizationChallenge enabled chs
          = findChallenge ChallengeTypeDNS01 chs)
    ∧ (∀ ch, enabled = false → selectAuthorizationChallenge enabled chs = some ch →
        ch.ctype = ChallengeTypeDNS01)
    ∧ (selectAuthorizationChallenge enabled chs = none →
        validateAuthorization enabled chs env
          = (.unsupported "no supported challenge available", []))
    ∧ (∀ ch, selectAuthorizationChallenge enabled chs = some ch →
        ch.status = ChallengeStatusValid →
        validateAuthorization enabled chs env = (.ok, [])) := by
  refine ⟨?_, ?_, ?_, ?_, ?_⟩
  · rintro ch rfl hfind
    simp [selectAuthorizationChallenge, hfind]
  · rintro (rfl | hnone)
    · simp [selectAuthorizationChallenge]
    · simp [selectAuthorizationChallenge, hnone]
  · rintro ch rfl hsel
    rw [show selectAuthorizationChallenge false chs
        = findChallenge ChallengeTypeDNS01 chs from by
          simp [selectAuthorizationChallenge]] at hsel
    have h := List.find?_some hsel
    simpa using h
  · intro hnone
    simp [validateAuthorization, hnone]
  · intro ch hsel hvalid
    simp [validateAuthorization, hsel, hvalid]

/-- Witness for `selectAuthorizationChallenge_spec`. -/
theorem selectAuthorizationChallenge_spec_witness :
    selectAuthorizationChallenge true
        [⟨ChallengeTypeHTTP01, "u", "pending", "t"⟩]
      = some ⟨ChallengeTypeHTTP01, "u", "pending", "t"⟩
    ∧ validateAuthorization false [] ⟨⟨true, true⟩, true⟩
        = (.unsupported "no supported challenge available", [])
    ∧ validateAuthorization true [⟨ChallengeTypeHTTP01, "u", "valid", "t"⟩]
        ⟨⟨true, true⟩, true⟩ = (.ok, []) := by
  refine ⟨?_, ?_, ?_⟩
  · exact (selectAuthorizationChallenge_spec true
      [⟨ChallengeTypeHTTP01, "u", "pending", "t"⟩] ⟨⟨true, true⟩, true⟩).1
      ⟨ChallengeTypeHTTP01, "u", "pending", "t"⟩ rfl (by decide)
  · exact (selectAuthorizationChallenge_spec false [] ⟨⟨true, true⟩, true⟩).2.2.2.1
      (by decide)
  · exact (selectAuthorizationChallenge_spec true
      [⟨ChallengeTypeHTTP01, "u", "valid", "t"⟩] ⟨⟨true, true⟩, true⟩).2.2.2.2
      ⟨ChallengeTypeHTTP01, "u", "valid", "t"⟩ (by decide) (by decide)

/-! ## Nonce pool and request layer (C2, C10) -/

/-- `PebbleDirectoryURI` (unnamed/part_015 line 15). -/
def PebbleDirectoryURI : String := "https://localhost:14000/dir"

/-- `ErrorTypeBadNonce` (pkg/acme/api.go line 23). -/
def ErrorTypeBadNonce : String := "urn:ietf:params:acme:error:badNonce"

/-- An HTTP response as the request layer reads it: the status code and
the `Replay-Nonce` header, with `""` for an absent header exactly as
`http.Header.Get` reports it. -/
structure HTTPResp where
  status : Nat
  replayNonce : String
deriving DecidableEq, Repr

/-- The HTTP exchange behind one `sendRequestWithNonce` call: the
response (`none` models a transport error from `httpClient.Do`),
whether `io.ReadAll` on the body succeeds, and the ProblemDetails type
a non-2xx body decodes to (`none` when the body is not a ProblemDetails
document). -/
structure RespEnv where
  resp : Option HTTPResp
  readOk : Bool
  problemType : Option String
deriving DecidableEq, Repr

/-- Errors of the embedded request layer. `problem t` is a
`*ProblemDetails` with `Type` field `t`, the only error that
`errors.As` recognizes in `sendRequest`; the other constructors stand
for the wrapped plain errors of the corresponding code paths. -/
inductive ReqError where
  | emptyNonce
  | transport
  | readBody
  | problem (ptype : String)
  | httpStatus (status : Nat)
  | missingNonceHeader
  | noAttempts
deriving DecidableEq, Repr

/-- Whether `sendRequestWithNonce` signs the request (api.go line 176):
everything except HEAD requests and the directory GET. -/
def signedRequest (method uri directoryURI : String) : Bool :=
  method ≠ "HEAD" && uri ≠ directoryURI

/-- `Client.storeNonce` (client.go lines 165-169): append to the pool. -/
def storeNonce (pool : List String) (nonce : String) : List String :=
  pool ++ [nonce]

/-- `Client.sendRequestWithNonce` (pkg/acme/api.go lines 163-243),
restricted to the state it touches: the result of the call and the
nonce pool after it. A signed request demands a non-empty nonce (line
177); when a response arrives, its non-empty `Replay-Nonce` is stored
iff the request carried a nonce (lines 205-212), before the body is
read or the status inspected; a non-2xx response yields its decoded
ProblemDetails, or a plain status error when the body is not one. -/
def sendRequestWithNonce (method uri directoryURI nonce : String)
    (env : RespEnv) (pool : List String) :
    Except ReqError HTTPResp × List String :=
  if signedRequest method uri directoryURI ∧ nonce = "" then
    (.error .emptyNonce, pool)
  else
    match env.resp with
    | none => (.error .transport, pool)
    | some res =>
      let pool1 :=
        if nonce ≠ "" ∧ res.replayNonce ≠ "" then storeNonce pool res.replayNonce
        else pool
      if !env.readOk then (.error .readBody, pool1)
      else if res.status < 200 || 300 < res.status then
        match env.problemType with
        | some t => (.error (.problem t), pool1)
        | none => (.error (.httpStatus res.status), pool1)
      else (.ok res, pool1)

/-- `Client.fetchNonce` (pkg/acme/api.go lines 245-258): a HEAD request
to the newNonce endpoint, sent with an empty nonce, so that the nonce
of the response is not deposited but returned directly; an absent
`Replay-Nonce` header is an error. -/
def fetchNonce (newNonceURI directoryURI : String) (env : RespEnv)
    (pool : List String) : Except ReqError String × List String :=
  match sendRequestWithNonce "HEAD" newNonceURI directoryURI "" env pool with
  | (.error e, p) => (.error e, p)
  | (.ok res, p) =>
    if res.replayNonce = "" then (.error .missingNonceHeader, p)
    else (.ok res.replayNonce, p)

/-- The nonce state of a client: the pool `Client.nonces` plus the
environment of the newNonce endpoint: `fetchEnv i` is the HTTP exchange
of the i-th newNonce HEAD request, `fetchIdx` how many were made. -/
structure NonceState where
  pool : List String
  fetchEnv : Nat → RespEnv
  fetchIdx : Nat

/-- `Client.nextNonce` (client.go lines 171-187): remove and return the
head of the pool when it is non-empty, otherwise fetch a fresh nonce
from the newNonce endpoint. -/
def nextNonce (newNonceURI directoryURI : String) (s : NonceState) :
    Except ReqError String × NonceState :=
  match s.pool with
  | n :: rest => (.ok n, { s with pool := rest })
  | [] =>
    match fetchNonce newNonceURI directoryURI (s.fetchEnv s.fetchIdx) [] with
    | (.error e, p) => (.error e, { s with pool := p, fetchIdx := s.fetchIdx + 1 })
    | (.ok n, p) => (.ok n, { s with pool := p, fetchIdx := s.fetchIdx + 1 })


/-- The pool after a `sendRequestWithNonce` call: the response deposits
its `Replay-Nonce` exactly when a response arrived, the request carried
a nonce, and the header is non-empty. -/
theorem sendRequestWithNonce_pool (method uri directoryURI nonce : String)
    (orsp : Option HTTPResp) (rdOk : Bool) (pty : Option String)
    (pool : List String) :
    (sendRequestWithNonce method uri directoryURI nonce ⟨orsp, rdOk, pty⟩ pool).2
      = match orsp with
        | some res =>
          if nonce ≠ "" ∧ res.replayNonce ≠ "" then pool ++ [res.replayNonce]
          else pool
        | none => pool := by
  by_cases hguard : signedRequest method uri directoryURI ∧ nonce = ""
  · cases orsp with
    | none => simp [sendRequestWithNonce, hguard]
    | some res =>
      have hdep : ¬ (nonce ≠ "" ∧ res.replayNonce ≠ "") := fun h => h.1 hguard.2
      simp [sendRequestWithNonce, hguard, hdep]
  · cases orsp with
    | none => simp [sendRequestWithNonce, hguard]
    | some res =>
      by_cases hdep : nonce ≠ "" ∧ res.replayNonce ≠ "" <;>
        cases rdOk <;>
          by_cases hst : (decide (res.status < 200) || decide (300 < res.status)) = true <;>
            cases pty <;>
              simp [sendRequestWithNonce, hguard, hdep, hst, storeNonce]

/-- The result of `sendRequestWithNonce` on one exchange, as a function
of the exchange alone, valid once the request carries a nonce. -/
def attemptResult (env : RespEnv) : Except ReqError HTTPResp :=
  match env.resp with
  | none => .error .transport
  | some res =>
    if !env.readOk then .error .readBody
    else if res.status < 200 || 300 < res.status then
      match env.problemType with
      | some t => .error (.problem t)
      | none => .error (.httpStatus res.status)
    else .ok res

theorem sendRequestWithNonce_result (method uri directoryURI nonce : String)
    (env : RespEnv) (pool : List String) (hn : nonce ≠ "") :
    (sendRequestWithNonce method uri directoryURI nonce env pool).1
      = attemptResult env := by
  have hguard : ¬ (signedRequest method uri directoryURI ∧ nonce = "") :=
    fun h => hn h.2
  obtain ⟨orsp, rdOk, pty⟩ := env
  cases orsp with
  | none => simp [sendRequestWithNonce, attemptResult, hguard]
  | some res =>
    by_cases hdep : nonce ≠ "" ∧ res.replayNonce ≠ "" <;>
      cases rdOk <;>
        by_cases hst : (decide (res.status < 200) || decide (300 < res.status)) = true <;>
          cases pty <;>
            simp [sendRequestWithNonce, attemptResult, hguard, hdep, hst]

/-- The newNonce fetch never touches the pool: it sends with an empty
nonce, so the deposit guard is always false. -/
theorem fetchNonce_pool (newNonceURI directoryURI : String) (env : RespEnv)
    (pool : List String) :
    (fetchNonce newNonceURI directoryURI env pool).2 = pool := by
  obtain ⟨orsp, rdOk, pty⟩ := env
  have hp := sendRequestWithNonce_pool "HEAD" newNonceURI directoryURI ""
    orsp rdOk pty pool
  obtain ⟨r, p, hsr⟩ :
      ∃ r p, sendRequestWithNonce "HEAD" newNonceURI directoryURI ""
        ⟨orsp, rdOk, pty⟩ pool = (r, p) := ⟨_, _, rfl⟩
  rw [hsr] at hp
  have hp2 : p = pool := by
    cases orsp <;> simpa using hp
  unfold fetchNonce
  rw [hsr]
  cases r with
  | error e => exact hp2
  | ok res => by_cases hrn : res.replayNonce = "" <;> simp [hrn, hp2]

/-- A successful 2xx newNonce exchange hands its `Replay-Nonce` header
straight back. -/
theorem fetchNonce_ok (newNonceURI directoryURI : String) (res : HTTPResp)
    (pty : Option String) (pool : List String)
    (h200 : 200 ≤ res.status) (h300 : res.status ≤ 300)
    (hrn : res.replayNonce ≠ "") :
    (fetchNonce newNonceURI directoryURI ⟨some res, true, pty⟩ pool).1
      = .ok res.replayNonce := by
  have hsigned : signedRequest "HEAD" newNonceURI directoryURI = false := by
    simp [signedRequest]
  have hst : (decide (res.status < 200) || decide (300 < res.status)) = false := by
    simp only [Bool.or_eq_false_iff, decide_eq_false_iff_not, not_lt]
    exact ⟨h200, h300⟩
  simp [fetchNonce, sendRequestWithNonce, hsigned, hst, hrn]

theorem nextNonce_cons (newNonceURI directoryURI : String) (s : NonceState)
    (n : String) (rest : List String) (hpool : s.pool = n :: rest) :
    nextNonce newNonceURI directoryURI s = (.ok n, { s with pool := rest }) := by
  unfold nextNonce
  rw [hpool]

theorem nextNonce_nil (newNonceURI directoryURI : String) (s : NonceState)
    (hpool : s.pool = []) :
    nextNonce newNonceURI directoryURI s
      = (let r := fetchNonce newNonceURI directoryURI (s.fetchEnv s.fetchIdx) []
         (r.1, { s with pool := r.2, fetchIdx := s.fetchIdx + 1 })) := by
  unfold nextNonce
  rw [hpool]
  obtain ⟨r, p, hfetch⟩ :
      ∃ r p, fetchNonce newNonceURI directoryURI (s.fetchEnv s.fetchIdx) [] = (r, p) :=
    ⟨_, _, rfl⟩
  rw [hfetch]
  cases r <;> simp

/-- C10: a response to a signed request with a non-empty nonce has any
non-empty `Replay-Nonce` header appended to the pool whatever the
status or later errors; without such a header, or without a request
nonce, the pool is unchanged; the newNonce HEAD fetch never deposits
and hands its nonce straight to the caller; `nextNonce` pops the head
of a non-empty pool and otherwise delegates to `fetchNonce`, consuming
the next fetch exchange. -/
theorem nonce_pool_spec (method uri directoryURI newNonceURI nonce : String)
    (env : RespEnv) (pool : List String) (s : NonceState) :
    (∀ res, env.resp = some res → nonce ≠ "" → res.replayNonce ≠ "" →
      (sendRequestWithNonce method uri directoryURI nonce env pool).2
        = pool ++ [res.replayNonce])
    ∧ (∀ res, env.resp = some res → res.replayNonce = "" ∨ nonce = "" →
        (sendRequestWithNonce method uri directoryURI nonce env pool).2 = pool)
    ∧ (fetchNonce newNonceURI directoryURI env pool).2 = pool
    ∧ (∀ res, env.resp = some res → env.readOk = true →
        200 ≤ res.status → res.status ≤ 300 → res.replayNonce ≠ "" →
        (fetchNonce newNonceURI directoryURI env pool).1 = .ok res.replayNonce)
    ∧ (∀ n rest, s.pool = n :: rest →
        nextNonce newNonceURI directoryURI s = (.ok n, { s with pool := rest }))
    ∧ (s.pool = [] →
        nextNonce newNonceURI directoryURI s
          = (let r := fetchNonce newNonceURI directoryURI (s.fetchEnv s.fetchIdx) []
             (r.1, { s with pool := r.2, fetchIdx := s.fetchIdx + 1 }))) := by
  refine ⟨?_, ?_, fetchNonce_pool newNonceURI directoryURI env pool, ?_,
    fun n rest h => nextNonce_cons newNonceURI directoryURI s n rest h,
    fun h => nextNonce_nil newNonceURI directoryURI s h⟩
  · intro res hres hnonce hreplay
    obtain ⟨orsp, rdOk, pty⟩ := env
    obtain rfl : orsp = some res := hres
    have hp := sendRequestWithNonce_pool method uri directoryURI nonce
      (some res) rdOk pty pool
    simpa [hnonce, hreplay] using hp
  · intro res hres hcase
    obtain ⟨orsp, rdOk, pty⟩ := env
    obtain rfl : orsp = some res := hres
    have hdep : ¬ (nonce ≠ "" ∧ res.replayNonce ≠ "") := by
      rcases hcase with h | h
      · rintro ⟨-, hr⟩; exact hr h
      · rintro ⟨hn, -⟩; exact hn h
    have hp := sendRequestWithNonce_pool method uri directoryURI nonce
      (some res) rdOk pty pool
    simpa [hdep] using hp
  · intro res hres hread h200 h300 hreplay
    obtain ⟨orsp, rdOk, pty⟩ := env
    obtain rfl : orsp = some res := hres
    obtain rfl : rdOk = true := hread
    exact fetchNonce_ok newNonceURI directoryURI res pty pool h200 h300 hreplay

/-- Witness for `nonce_pool_spec` at a concrete exchange and pool. -/
theorem nonce_pool_spec_witness :
    (sendRequestWithNonce "POST" "https://ca/x" "https://ca/dir" "n1"
        ⟨some ⟨400, "n2"⟩, true, some ErrorTypeBadNonce⟩ ["p"]).2 = ["p", "n2"]
    ∧ (fetchNonce "https://ca/nn" "https://ca/dir"
        ⟨some ⟨200, "n3"⟩, true, none⟩ []).1 = .ok "n3"
    ∧ nextNonce "https://ca/nn" "https://ca/dir"
        ⟨["a", "b"], (fun _ => ⟨none, true, none⟩), 0⟩
      = (.ok "a",
          { pool := ["b"]
            fetchEnv := fun _ => ⟨none, true, none⟩
            fetchIdx := 0 }) := by
  refine ⟨?_, ?_, ?_⟩
  · exact (nonce_pool_spec "POST" "https://ca/x" "https://ca/dir" "https://ca/nn" "n1"
      ⟨some ⟨400, "n2"⟩, true, some ErrorTypeBadNonce⟩ ["p"]
      ⟨[], (fun _ => ⟨none, true, none⟩), 0⟩).1 ⟨400, "n2"⟩ rfl
      (by decide) (by decide)
  · exact (nonce_pool_spec "HEAD" "https://ca/nn" "https://ca/dir" "https://ca/nn" ""
      ⟨some ⟨200, "n3"⟩, true, none⟩ []
      ⟨[], (fun _ => ⟨none, true, none⟩), 0⟩).2.2.2.1 ⟨200, "n3"⟩ rfl rfl
      (by decide) (by decide) (by decide)
  · exact (nonce_pool_spec "POST" "u" "d" "https://ca/nn" "n" ⟨none, true, none⟩ []
      ⟨["a", "b"], (fun _ => ⟨none, true, none⟩), 0⟩).2.2.2.2.1 "a" ["b"] rfl

/-- Ghost trace of a `sendRequest` run: the Go result (success or the
returned error), the nonces taken for the successive attempts, and the
final nonce state. -/
structure SendTrace where
  result : Except ReqError Unit
  noncesUsed : List String
  finalState : NonceState

/-- Whether an error triggers the badNonce retry (api.go lines
150-155): `errors.As` must see a ProblemDetails and its `Type` must be
the badNonce URN. -/
def isBadNonceError : ReqError → Bool
  | .problem t => t = ErrorTypeBadNonce
  | _ => false

/-- The attempt loop of `Client.sendRequest` (pkg/acme/api.go lines
138-160): each iteration takes a nonce with `nextNonce` (a failure
there aborts with the wrapped cannot-obtain-nonce error), sends the
request with it, returns on success, returns any non-badNonce error at
once, and otherwise remembers the badNonce error and retries; an
exhausted budget returns the last badNonce error. `attemptEnv i` is the
HTTP exchange of attempt `i`; `i` counts attempts, `r` is the remaining
budget. -/
def sendRequestLoop (method uri directoryURI newNonceURI : String)
    (attemptEnv : Nat → RespEnv) :
    Nat → Nat → NonceState → Option ReqError → List String → SendTrace
  | _, 0, s, lastBad, used => ⟨.error (lastBad.getD .noAttempts), used, s⟩
  | i, r + 1, s, _, used =>
    match nextNonce newNonceURI directoryURI s with
    | (.error e, s1) => ⟨.error e, used, s1⟩
    | (.ok n, s1) =>
      match sendRequestWithNonce method uri directoryURI n (attemptEnv i) s1.pool with
      | (.ok _, p) => ⟨.ok (), used ++ [n], { s1 with pool := p }⟩
      | (.error e, p) =>
        if isBadNonceError e then
          sendRequestLoop method uri directoryURI newNonceURI attemptEnv
            (i + 1) r { s1 with pool := p } (some e) (used ++ [n])
        else ⟨.error e, used ++ [n], { s1 with pool := p }⟩

/-- The retry budget (api.go lines 133-136): 100 against Pebble, 3
otherwise. -/
def nbAttempts (directoryURI : String) : Nat :=
  if directoryURI = PebbleDirectoryURI then 100 else 3

/-- `Client.sendRequest` (pkg/acme/api.go lines 132-161). -/
def sendRequest (method uri directoryURI newNonceURI : String)
    (attemptEnv : Nat → RespEnv) (s : NonceState) : SendTrace :=
  sendRequestLoop method uri directoryURI newNonceURI attemptEnv
    0 (nbAttempts directoryURI) s none []

/-- A newNonce exchange that yields a nonce. -/
def fetchOk (env : RespEnv) : Prop :=
  ∃ res, env.resp = some res ∧ env.readOk = true
    ∧ 200 ≤ res.status ∧ res.status ≤ 300 ∧ res.replayNonce ≠ ""

/-- The nonce a successful newNonce exchange yields. -/
def fetchedNonce (env : RespEnv) : String :=
  match env.resp with
  | some res => res.replayNonce
  | none => ""

/-- The `Replay-Nonce` on the response of an attempt exchange, `""`
when the response is absent or carries none. -/
def attemptReplay (env : RespEnv) : String :=
  match env.resp with
  | some res => res.replayNonce
  | none => ""

/-- Nonce states whose takes always succeed with non-empty nonces. -/
def goodNonces (s : NonceState) : Prop :=
  (∀ n ∈ s.pool, n ≠ "") ∧ ∀ i, fetchOk (s.fetchEnv i)

/-- Attempt exchanges whose outcome is a badNonce ProblemDetails. -/
def isBadNonceAttempt (env : RespEnv) : Bool :=
  match attemptResult env with
  | .error e => isBadNonceError e
  | .ok _ => false

theorem fetchNonce_fetchOk (newNonceURI directoryURI : String) (env : RespEnv)
    (pool : List String) (h : fetchOk env) :
    (fetchNonce newNonceURI directoryURI env pool).1 = .ok (fetchedNonce env)
      ∧ fetchedNonce env ≠ "" := by
  obtain ⟨res, hres, hrd, h2, h3, hrn⟩ := h
  obtain ⟨orsp, rdOk, pty⟩ := env
  obtain rfl : orsp = some res := hres
  obtain rfl : rdOk = true := hrd
  exact ⟨fetchNonce_ok newNonceURI directoryURI res pty pool h2 h3 hrn,
    by simpa [fetchedNonce] using hrn⟩

theorem nextNonce_good (newNonceURI directoryURI : String) (s : NonceState)
    (hs : goodNonces s) :
    ∃ n s1, nextNonce newNonceURI directoryURI s = (.ok n, s1)
      ∧ n ≠ "" ∧ goodNonces s1 ∧ s1.fetchEnv = s.fetchEnv := by
  obtain ⟨hpool, hfetch⟩ := hs
  cases hp : s.pool with
  | cons n rest =>
    refine ⟨n, { s with pool := rest }, nextNonce_cons _ _ s n rest hp, ?_, ?_, rfl⟩
    · exact hpool n (hp ▸ List.mem_cons_self n rest)
    · exact ⟨fun m hm => hpool m (hp ▸ List.mem_cons_of_mem n hm), hfetch⟩
  | nil =>
    obtain ⟨hres1, hne⟩ := fetchNonce_fetchOk newNonceURI directoryURI
      (s.fetchEnv s.fetchIdx) [] (hfetch s.fetchIdx)
    have hnil := nextNonce_nil newNonceURI directoryURI s hp
    refine ⟨fetchedNonce (s.fetchEnv s.fetchIdx),
      { s with
          pool := (fetchNonce newNonceURI directoryURI (s.fetchEnv s.fetchIdx) []).2
          fetchIdx := s.fetchIdx + 1 }, ?_, hne, ?_, rfl⟩
    · rw [hnil]
      show ((fetchNonce newNonceURI directoryURI (s.fetchEnv s.fetchIdx) []).1, _) = _
      rw [hres1]
    · constructor
      · rw [fetchNonce_pool]
        intro n hn
        cases hn
      · exact hfetch

theorem sendRequestWithNonce_pool_some (method uri directoryURI nonce : String)
    (res : HTTPResp) (rdOk : Bool) (pty : Option String) (pool : List String) :
    (sendRequestWithNonce method uri directoryURI nonce ⟨some res, rdOk, pty⟩ pool).2
      = if nonce ≠ "" ∧ res.replayNonce ≠ "" then pool ++ [res.replayNonce]
        else pool := by
  simpa using sendRequestWithNonce_pool method uri directoryURI nonce
    (some res) rdOk pty pool

theorem sendRequestWithNonce_pool_none (method uri directoryURI nonce : String)
    (rdOk : Bool) (pty : Option String) (pool : List String) :
    (sendRequestWithNonce method uri directoryURI nonce ⟨none, rdOk, pty⟩ pool).2
      = pool := by
  simpa using sendRequestWithNonce_pool method uri directoryURI nonce
    none rdOk pty pool

theorem sendRequestWithNonce_pool_good (method uri directoryURI nonce : String)
    (env : RespEnv) (pool : List String) (hpool : ∀ n ∈ pool, n ≠ "") :
    ∀ n ∈ (sendRequestWithNonce method uri directoryURI nonce env pool).2, n ≠ "" := by
  obtain ⟨orsp, rdOk, pty⟩ := env
  cases orsp with
  | none =>
    rw [sendRequestWithNonce_pool_none]
    exact hpool
  | some res =>
    rw [sendRequestWithNonce_pool_some]
    by_cases hdep : nonce ≠ "" ∧ res.replayNonce ≠ ""
    · rw [if_pos hdep]
      intro n hn
      rcases List.mem_append.mp hn with h | h
      · exact hpool n h
      · rw [List.mem_singleton.mp h]
        exact hdep.2
    · rw [if_neg hdep]
      exact hpool

theorem sendRequestLoop_skip (method uri directoryURI newNonceURI : String)
    (attemptEnv : Nat → RespEnv) :
    ∀ (k r i : Nat) (s : NonceState) (lastBad : Option ReqError) (used : List String),
      goodNonces s → k ≤ r →
      (∀ j, j < k → isBadNonceAttempt (attemptEnv (i + j)) = true) →
      ∃ s1 ns lb1,
        sendRequestLoop method uri directoryURI newNonceURI attemptEnv
            i r s lastBad used
          = sendRequestLoop method uri directoryURI newNonceURI attemptEnv
              (i + k) (r - k) s1 lb1 (used ++ ns)
        ∧ ns.length = k ∧ goodNonces s1
        ∧ ((k = 0 ∧ lb1 = lastBad)
            ∨ (0 < k ∧ ∃ e, lb1 = some e
                ∧ attemptResult (attemptEnv (i + (k - 1))) = .error e
                ∧ isBadNonceError e = true)) := by
  intro k
  induction k with
  | zero =>
    intro r i s lastBad used hs _ _
    exact ⟨s, [], lastBad, by simp, rfl, hs, Or.inl ⟨rfl, rfl⟩⟩
  | succ k ih =>
    intro r i s lastBad used hs hk hbad
    obtain ⟨r1, rfl⟩ : ∃ r1, r = r1 + 1 := ⟨r - 1, by omega⟩
    obtain ⟨n, s1, hnn, hne, hs1, -⟩ := nextNonce_good newNonceURI directoryURI s hs
    have hres := sendRequestWithNonce_result method uri directoryURI n
      (attemptEnv i) s1.pool hne
    have hbad0 := hbad 0 (by omega)
    rw [Nat.add_zero] at hbad0
    obtain ⟨e, hae, hbe⟩ :
        ∃ e, attemptResult (attemptEnv i) = .error e ∧ isBadNonceError e = true := by
      unfold isBadNonceAttempt at hbad0
      cases hx : attemptResult (attemptEnv i) with
      | error e => exact ⟨e, rfl, by rwa [hx] at hbad0⟩
      | ok _ => rw [hx] at hbad0; cases hbad0
    obtain ⟨rr, pp, hsr⟩ :
        ∃ rr pp, sendRequestWithNonce method uri directoryURI n
          (attemptEnv i) s1.pool = (rr, pp) := ⟨_, _, rfl⟩
    have hrr : rr = .error e := by
      have h2 : rr = attemptResult (attemptEnv i) := by
        have h3 := hres
        rw [hsr] at h3
        exact h3
      rw [h2, hae]
    subst hrr
    have hstep : sendRequestLoop method uri directoryURI newNonceURI attemptEnv
        i (r1 + 1) s lastBad used
        = sendRequestLoop method uri directoryURI newNonceURI attemptEnv
            (i + 1) r1 { s1 with pool := pp } (some e) (used ++ [n]) := by
      simp only [sendRequestLoop, hnn, hsr, hbe, if_true]
    have hs2 : goodNonces { s1 with pool := pp } := by
      constructor
      · intro m hm
        have := sendRequestWithNonce_pool_good method uri directoryURI n
          (attemptEnv i) s1.pool hs1.1
        rw [hsr] at this
        exact this m hm
      · exact hs1.2
    obtain ⟨s3, ns3, lb3, heq, hlen, hgood3, hlast⟩ :=
      ih r1 (i + 1) { s1 with pool := pp } (some e) (used ++ [n]) hs2 (by omega)
        (fun j hj => by
          have := hbad (j + 1) (by omega)
          rwa [show i + (j + 1) = i + 1 + j by omega] at this)
    have hidx : i + 1 + k = i + (k + 1) := by omega
    have hrem : r1 - k = r1 + 1 - (k + 1) := by omega
    refine ⟨s3, n :: ns3, lb3, ?_, by simp [hlen], hgood3, ?_⟩
    · rw [hstep, heq, hidx, hrem]
      congr 1
      simp
    · rcases hlast with ⟨hk0, hlb⟩ | ⟨hkpos, e3, hlb, hae3, hbe3⟩
      · subst hk0
        exact Or.inr ⟨by omega, e, hlb, by simpa using hae, hbe⟩
      · refine Or.inr ⟨by omega, e3, hlb, ?_, hbe3⟩
        rwa [show i + 1 + (k - 1) = i + (k + 1 - 1) by omega] at hae3

theorem nbAttempts_pos (directoryURI : String) : 0 < nbAttempts directoryURI := by
  unfold nbAttempts
  split <;> omega

theorem sendRequestWithNonce_pool_noreplay (method uri directoryURI nonce : String)
    (env : RespEnv) (pool : List String) (hrep : attemptReplay env = "") :
    (sendRequestWithNonce method uri directoryURI nonce env pool).2 = pool := by
  obtain ⟨orsp, rdOk, pty⟩ := env
  cases orsp with
  | none => rw [sendRequestWithNonce_pool_none]
  | some res =>
    rw [sendRequestWithNonce_pool_some, if_neg]
    rintro ⟨-, hr⟩
    exact hr (by simpa [attemptReplay] using hrep)

theorem sendRequest_exhausted (method uri directoryURI newNonceURI : String)
    (attemptEnv : Nat → RespEnv) (s : NonceState) (hs : goodNonces s)
    (hbad : ∀ j, j < nbAttempts directoryURI → isBadNonceAttempt (attemptEnv j) = true) :
    ∃ e, (sendRequest method uri directoryURI newNonceURI attemptEnv s).result
          = .error e
      ∧ attemptResult (attemptEnv (nbAttempts directoryURI - 1)) = .error e
      ∧ isBadNonceError e = true
      ∧ (sendRequest method uri directoryURI newNonceURI attemptEnv s).noncesUsed.length
          = nbAttempts directoryURI := by
  obtain ⟨s1, ns, lb1, heq, hlen, -, hlast⟩ :=
    sendRequestLoop_skip method uri directoryURI newNonceURI attemptEnv
      (nbAttempts directoryURI) (nbAttempts directoryURI) 0 s none []
      hs le_rfl (fun j hj => by simpa using hbad j hj)
  rcases hlast with ⟨hk0, -⟩ | ⟨-, e, hlb, hae, hbe⟩
  · have := nbAttempts_pos directoryURI
    omega
  · subst hlb
    refine ⟨e, ?_, by simpa using hae, hbe, ?_⟩
    · unfold sendRequest
      rw [heq, Nat.sub_self]
      simp [sendRequestLoop]
    · unfold sendRequest
      rw [heq, Nat.sub_self]
      simp [sendRequestLoop, hlen]

theorem sendRequest_step_after (method uri directoryURI newNonceURI : String)
    (attemptEnv : Nat → RespEnv) (s : NonceState) (k : Nat) (hs : goodNonces s)
    (hk : k < nbAttempts directoryURI)
    (hbad : ∀ j, j < k → isBadNonceAttempt (attemptEnv j) = true) :
    (∀ res, attemptResult (attemptEnv k) = .ok res →
      (sendRequest method uri directoryURI newNonceURI attemptEnv s).result = .ok ()
      ∧ (sendRequest method uri directoryURI newNonceURI attemptEnv s).noncesUsed.length
          = k + 1)
    ∧ (∀ e, attemptResult (attemptEnv k) = .error e → isBadNonceError e = false →
      (sendRequest method uri directoryURI newNonceURI attemptEnv s).result = .error e
      ∧ (sendRequest method uri directoryURI newNonceURI attemptEnv s).noncesUsed.length
          = k + 1) := by
  obtain ⟨s1, ns, lb1, heq, hlen, hgood1, -⟩ :=
    sendRequestLoop_skip method uri directoryURI newNonceURI attemptEnv
      k (nbAttempts directoryURI) 0 s none []
      hs (le_of_lt hk) (fun j hj => by simpa using hbad j hj)
  rw [Nat.zero_add, List.nil_append] at heq
  obtain ⟨m, hm⟩ : ∃ m, nbAttempts directoryURI - k = m + 1 :=
    ⟨nbAttempts directoryURI - k - 1, by omega⟩
  obtain ⟨n, s2, hnn, hne, -, -⟩ := nextNonce_good newNonceURI directoryURI s1 hgood1
  have hres := sendRequestWithNonce_result method uri directoryURI n
    (attemptEnv k) s2.pool hne
  obtain ⟨rr, pp, hsr⟩ :
      ∃ rr pp, sendRequestWithNonce method uri directoryURI n
        (attemptEnv k) s2.pool = (rr, pp) := ⟨_, _, rfl⟩
  have hrr : rr = attemptResult (attemptEnv k) := by
    have h3 := hres
    rw [hsr] at h3
    exact h3
  subst hrr
  constructor
  · intro res hok
    rw [hok] at hsr
    have hone : sendRequestLoop method uri directoryURI newNonceURI attemptEnv
        k (m + 1) s1 lb1 ns
        = ⟨.ok (), ns ++ [n], { s2 with pool := pp }⟩ := by
      simp only [sendRequestLoop, hnn, hsr]
    constructor
    · unfold sendRequest
      rw [heq, hm, hone]
    · unfold sendRequest
      rw [heq, hm, hone]
      simp [hlen]
  · intro e herr hbe
    rw [herr] at hsr
    have hone : sendRequestLoop method uri directoryURI newNonceURI attemptEnv
        k (m + 1) s1 lb1 ns
        = ⟨.error e, ns ++ [n], { s2 with pool := pp }⟩ := by
      simp only [sendRequestLoop, hnn, hsr, hbe, Bool.false_eq_true, if_false]
    constructor
    · unfold sendRequest
      rw [heq, hm, hone]
    · unfold sendRequest
      rw [heq, hm, hone]
      simp [hlen]

theorem sendRequestLoop_fresh (method uri directoryURI newNonceURI : String)
    (attemptEnv : Nat → RespEnv) (F : Nat → RespEnv)
    (hF : ∀ j, fetchOk (F j))
    (hbad : ∀ j, isBadNonceAttempt (attemptEnv j) = true)
    (hrep : ∀ j, attemptReplay (attemptEnv j) = "") :
    ∀ (r i fi : Nat) (lastBad : Option ReqError) (used : List String),
      (sendRequestLoop method uri directoryURI newNonceURI attemptEnv i r
          ⟨[], F, fi⟩ lastBad used).noncesUsed
        = used ++ (List.range r).map (fun t => fetchedNonce (F (fi + t))) := by
  intro r
  induction r with
  | zero =>
    intro i fi lastBad used
    simp [sendRequestLoop]
  | succ r ih =>
    intro i fi lastBad used
    obtain ⟨hfet1, hfne⟩ := fetchNonce_fetchOk newNonceURI directoryURI (F fi) [] (hF fi)
    have hnn : nextNonce newNonceURI directoryURI ⟨[], F, fi⟩
        = (.ok (fetchedNonce (F fi)), ⟨[], F, fi + 1⟩) := by
      rw [nextNonce_nil newNonceURI directoryURI ⟨[], F, fi⟩ rfl]
      show ((fetchNonce newNonceURI directoryURI (F fi) []).1, _) = _
      rw [hfet1, fetchNonce_pool]
    obtain ⟨e, hae, hbe⟩ :
        ∃ e, attemptResult (attemptEnv i) = .error e ∧ isBadNonceError e = true := by
      have hb := hbad i
      unfold isBadNonceAttempt at hb
      cases hx : attemptResult (attemptEnv i) with
      | error e => exact ⟨e, rfl, by rwa [hx] at hb⟩
      | ok _ => rw [hx] at hb; cases hb
    have h1 : (sendRequestWithNonce method uri directoryURI (fetchedNonce (F fi))
        (attemptEnv i) (⟨[], F, fi + 1⟩ : NonceState).pool).1 = .error e := by
      rw [sendRequestWithNonce_result method uri directoryURI (fetchedNonce (F fi))
        (attemptEnv i) _ hfne, hae]
    have h2 : (sendRequestWithNonce method uri directoryURI (fetchedNonce (F fi))
        (attemptEnv i) (⟨[], F, fi + 1⟩ : NonceState).pool).2 = [] :=
      sendRequestWithNonce_pool_noreplay method uri directoryURI _ _ _ (hrep i)
    have hsr : sendRequestWithNonce method uri directoryURI (fetchedNonce (F fi))
        (attemptEnv i) (⟨[], F, fi + 1⟩ : NonceState).pool = (.error e, []) := by
      have hsplit : sendRequestWithNonce method uri directoryURI (fetchedNonce (F fi))
          (attemptEnv i) (⟨[], F, fi + 1⟩ : NonceState).pool
          = ((sendRequestWithNonce method uri directoryURI (fetchedNonce (F fi))
              (attemptEnv i) (⟨[], F, fi + 1⟩ : NonceState).pool).1,
             (sendRequestWithNonce method uri directoryURI (fetchedNonce (F fi))
              (attemptEnv i) (⟨[], F, fi + 1⟩ : NonceState).pool).2) := rfl
      rw [hsplit, h1, h2]
    have hstep : sendRequestLoop method uri directoryURI newNonceURI attemptEnv
        i (r + 1) ⟨[], F, fi⟩ lastBad used
        = sendRequestLoop method uri directoryURI newNonceURI attemptEnv
            (i + 1) r ⟨[], F, fi + 1⟩ (some e) (used ++ [fetchedNonce (F fi)]) := by
      simp only [sendRequestLoop, hnn, hsr, hbe, if_true]
    rw [hstep, ih (i + 1) (fi + 1) (some e) (used ++ [fetchedNonce (F fi)]),
      List.append_assoc, List.singleton_append]
    congr 1
    rw [List.range_succ_eq_map, List.map_cons, List.map_map, Nat.add_zero]
    congr 1
    apply List.map_congr_left
    intro t _
    show fetchedNonce (F (fi + 1 + t)) = fetchedNonce (F (fi + (t + 1)))
    rw [show fi + 1 + t = fi + (t + 1) by omega]

/-- C2: the retry budget of `sendRequest` is 3, or 100 when the
configured directory URI is the Pebble one; while attempts fail with
badNonce ProblemDetails the whole request is retried, taking a fresh
nonce for every attempt; a success or a non-badNonce error on some
attempt ends the loop at once with that outcome; a badNonce error
reaches the caller only when all budgeted attempts failed with
badNonce, and then it is the last attempt's error; with an empty pool
and replies carrying no Replay-Nonce, the nonces used are exactly the
successively fetched ones. -/
theorem sendRequest_badNonce_retry (method uri directoryURI newNonceURI : String)
    (attemptEnv : Nat → RespEnv) (s : NonceState) (k : Nat) :
    (nbAttempts PebbleDirectoryURI = 100
      ∧ (directoryURI ≠ PebbleDirectoryURI → nbAttempts directoryURI = 3))
    ∧ (goodNonces s →
        (∀ j, j < nbAttempts directoryURI → isBadNonceAttempt (attemptEnv j) = true) →
        ∃ e, (sendRequest method uri directoryURI newNonceURI attemptEnv s).result
              = .error e
          ∧ attemptResult (attemptEnv (nbAttempts directoryURI - 1)) = .error e
          ∧ isBadNonceError e = true
          ∧ (sendRequest method uri directoryURI newNonceURI attemptEnv s).noncesUsed.length
              = nbAttempts directoryURI)
    ∧ (goodNonces s → k < nbAttempts directoryURI →
        (∀ j, j < k → isBadNonceAttempt (attemptEnv j) = true) →
        (∀ res, attemptResult (attemptEnv k) = .ok res →
          (sendRequest method uri directoryURI newNonceURI attemptEnv s).result = .ok ()
          ∧ (sendRequest method uri directoryURI newNonceURI attemptEnv s).noncesUsed.length
              = k + 1)
        ∧ (∀ e, attemptResult (attemptEnv k) = .error e → isBadNonceError e = false →
          (sendRequest method uri directoryURI newNonceURI attemptEnv s).result = .error e
          ∧ (sendRequest method uri directoryURI newNonceURI attemptEnv s).noncesUsed.length
              = k + 1))
    ∧ (∀ F : Nat → RespEnv, s = ⟨[], F, 0⟩ →
        (∀ j, fetchOk (F j)) →
        (∀ j, isBadNonceAttempt (attemptEnv j) = true) →
        (∀ j, attemptReplay (attemptEnv j) = "") →
        (sendRequest method uri directoryURI newNonceURI attemptEnv s).noncesUsed
          = (List.range (nbAttempts directoryURI)).map (fun t => fetchedNonce (F t))) := by
  refine ⟨⟨by simp [nbAttempts], fun h => by simp [nbAttempts, h]⟩, ?_, ?_, ?_⟩
  · intro hs hbad
    exact sendRequest_exhausted method uri directoryURI newNonceURI attemptEnv s hs hbad
  · intro hs hk hbad
    exact sendRequest_step_after method uri directoryURI newNonceURI attemptEnv s k
      hs hk hbad
  · rintro F rfl hF hbad hrep
    unfold sendRequest
    rw [sendRequestLoop_fresh method uri directoryURI newNonceURI attemptEnv F
      hF hbad hrep (nbAttempts directoryURI) 0 0 none []]
    simp

/-- Witness for `sendRequest_badNonce_retry`: one badNonce attempt is
retried with a new nonce and the second attempt succeeds. -/
theorem sendRequest_badNonce_retry_witness :
    (sendRequest "POST" "https://ca/x" "https://example.com/dir" "https://ca/nn"
        (fun j => if j = 0 then ⟨some ⟨400, ""⟩, true, some ErrorTypeBadNonce⟩
                  else ⟨some ⟨200, ""⟩, true, none⟩)
        ⟨["n0", "n1"], (fun _ => ⟨some ⟨200, "nf"⟩, true, none⟩), 0⟩).result = .ok ()
    ∧ (sendRequest "POST" "https://ca/x" "https://example.com/dir" "https://ca/nn"
        (fun j => if j = 0 then ⟨some ⟨400, ""⟩, true, some ErrorTypeBadNonce⟩
                  else ⟨some ⟨200, ""⟩, true, none⟩)
        ⟨["n0", "n1"], (fun _ => ⟨some ⟨200, "nf"⟩, true, none⟩), 0⟩).noncesUsed.length
        = 2 := by
  have hgood : goodNonces ⟨["n0", "n1"], (fun _ => ⟨some ⟨200, "nf"⟩, true, none⟩), 0⟩ := by
    constructor
    · intro n hn
      simp only [List.mem_cons, List.not_mem_nil, or_false] at hn
      rcases hn with rfl | rfl <;> decide
    · intro i
      exact ⟨⟨200, "nf"⟩, rfl, rfl, by decide, by decide, by decide⟩
  have h := ((sendRequest_badNonce_retry "POST" "https://ca/x"
      "https://example.com/dir" "https://ca/nn"
      (fun j => if j = 0 then ⟨some ⟨400, ""⟩, true, some ErrorTypeBadNonce⟩
                else ⟨some ⟨200, ""⟩, true, none⟩)
      ⟨["n0", "n1"], (fun _ => ⟨some ⟨200, "nf"⟩, true, none⟩), 0⟩ 1).2.2.1
      hgood (by decide)
      (fun j hj => by
        obtain rfl : j = 0 := by omega
        decide)).1
      ⟨200, ""⟩ rfl
  exact h

/-! ## C7: persisted record round trips -/

/-- `AccountData` (unnamed/part_017): the live fields; the
`PrivateKeyData` carrier field of the Go struct is the wire record
below. -/
structure AccountData (Key : Type) where
  uri : String
  privateKey : Option Key
deriving DecidableEq

/-- The JSON document `AccountData.MarshalJSON` produces. -/
structure EncodedAccountData where
  uri : String
  privateKeyData : List Nat
deriving DecidableEq, Repr

/-- `AccountData.MarshalJSON` (unnamed/part_017 lines 19-30): serialize
the private key as PKCS#8 - failing when the key is nil or not
serializable - and emit the document. `marshalPKCS8` is the
collaborator `x509.MarshalPKCS8PrivateKey`. -/
def AccountData.marshalJSON (marshalPKCS8 : Key → Option (List Nat))
    (a : AccountData Key) : Option EncodedAccountData :=
  match a.privateKey with
  | none => none
  | some key => (marshalPKCS8 key).map fun bs => ⟨a.uri, bs⟩

/-- `AccountData.UnmarshalJSON` (unnamed/part_017 lines 32-53): decode
the document and recover the key; `parsePKCS8` is the collaborator
`x509.ParsePKCS8PrivateKey` together with the crypto.Signer check. -/
def AccountData.unmarshalJSON (parsePKCS8 : List Nat → Option Key)
    (e : EncodedAccountData) : Option (AccountData Key) :=
  (parsePKCS8 e.privateKeyData).map fun key => ⟨e.uri, some key⟩

/-- A chunk of the PEM text `encodePEMCertificateChain` builds: a PEM
block, or text between blocks (such as the extra newline written after
each block) that `pem.Decode` skips over. -/
inductive PEMItem where
  | block (btype : String) (bytes : List Nat)
  | junk
deriving DecidableEq, Repr

/-- `encodePEMCertificateChain` (certificates.go lines 75-89): one
CERTIFICATE block per chain element (its raw DER bytes; `certRaw`
abstracts `cert.Raw`), each followed by an extra newline. -/
def encodePEMCertificateChain (certRaw : Cert → List Nat)
    (chain : List Cert) : List PEMItem :=
  chain.flatMap fun cert => [.block "CERTIFICATE" (certRaw cert), .junk]

/-- `decodePEMCertificateChain` (certificates.go lines 91-115):
`pem.Decode` in a loop - skipping non-PEM text, failing on a block that
is not a CERTIFICATE or whose bytes do not parse; `parseCert` is the
collaborator `x509.ParseCertificate`. -/
def decodePEMCertificateChain (parseCert : List Nat → Option Cert) :
    List PEMItem → Option (List Cert)
  | [] => some []
  | .junk :: rest => decodePEMCertificateChain parseCert rest
  | .block btype bytes :: rest =>
    if btype = "CERTIFICATE" then
      match parseCert bytes, decodePEMCertificateChain parseCert rest with
      | some cert, some certs => some (cert :: certs)
      | _, _ => none
    else none

/-- The JSON document `CertificateData.MarshalJSON` produces. -/
structure EncodedCertificateData where
  name : String
  identifiers : List Identifier
  validity : Int
  privateKeyData : List Nat
  certificateData : List PEMItem
deriving DecidableEq

/-- `CertificateData.MarshalJSON` (certificate_data.go lines 22-39,
unnamed/part_012 lines 74-91). -/
def CertificateData.marshalJSON (marshalPKCS8 : Key → Option (List Nat))
    (certRaw : Cert → List Nat) (d : CertificateData Key Cert) :
    Option EncodedCertificateData :=
  match d.privateKey with
  | none => none
  | some key =>
    (marshalPKCS8 key).map fun bs =>
      ⟨d.name, d.identifiers, d.validity, bs,
        encodePEMCertificateChain certRaw d.certificate⟩

/-- `CertificateData.UnmarshalJSON` (certificate_data.go lines 41-68,
unnamed/part_012 lines 93-120). -/
def CertificateData.unmarshalJSON (parsePKCS8 : List Nat → Option Key)
    (parseCert : List Nat → Option Cert) (e : EncodedCertificateData) :
    Option (CertificateData Key Cert) :=
  match parsePKCS8 e.privateKeyData with
  | none => none
  | some key =>
    match decodePEMCertificateChain parseCert e.certificateData with
    | none => none
    | some chain => some ⟨e.name, e.identifiers, e.validity, some key, chain⟩

theorem decode_encode_PEMChain {Cert : Type} (certRaw : Cert → List Nat)
    (parseCert : List Nat → Option Cert) (chain : List Cert)
    (h : ∀ c ∈ chain, parseCert (certRaw c) = some c) :
    decodePEMCertificateChain parseCert (encodePEMCertificateChain certRaw chain)
      = some chain := by
  induction chain with
  | nil => rfl
  | cons c cs ih =>
    have hc := h c (List.mem_cons_self c cs)
    have hcs := ih fun x hx => h x (List.mem_cons_of_mem c hx)
    have henc : encodePEMCertificateChain certRaw (c :: cs)
        = .block "CERTIFICATE" (certRaw c) :: .junk
            :: encodePEMCertificateChain certRaw cs := by
      simp [encodePEMCertificateChain]
    rw [henc]
    simp [decodePEMCertificateChain, hc, hcs]

/-- C7: for every AccountData and every CertificateData whose private
key is PKCS#8-serializable - with the PKCS#8 and X.509 collaborators
recovering what they encoded - decoding the JSON document produced by
encoding the value yields the original value, recovered private key
and certificate chain included. -/
theorem persisted_record_roundtrip {Key Cert : Type}
    (marshalPKCS8 : Key → Option (List Nat)) (parsePKCS8 : List Nat → Option Key)
    (certRaw : Cert → List Nat) (parseCert : List Nat → Option Cert)
    (a : AccountData Key) (d : CertificateData Key Cert)
    (ka : Key) (bsa : List Nat) (kd : Key) (bsd : List Nat) :
    (a.privateKey = some ka → marshalPKCS8 ka = some bsa →
      parsePKCS8 bsa = some ka →
      (a.marshalJSON marshalPKCS8).bind (AccountData.unmarshalJSON parsePKCS8)
        = some a)
    ∧ (d.privateKey = some kd → marshalPKCS8 kd = some bsd →
        parsePKCS8 bsd = some kd →
        (∀ c ∈ d.certificate, parseCert (certRaw c) = some c) →
        (d.marshalJSON marshalPKCS8 certRaw).bind
            (CertificateData.unmarshalJSON parsePKCS8 parseCert) = some d) := by
  constructor
  · intro hk hm hp
    obtain ⟨uri, pk⟩ := a
    obtain rfl : pk = some ka := hk
    simp [AccountData.marshalJSON, AccountData.unmarshalJSON, hm, hp]
  · intro hk hm hp hchain
    obtain ⟨name, ids, va, pk, chain⟩ := d
    obtain rfl : pk = some kd := hk
    have hdec := decode_encode_PEMChain certRaw parseCert chain (by simpa using hchain)
    simp [CertificateData.marshalJSON, CertificateData.unmarshalJSON, hm, hp, hdec]

/-- Witness for `persisted_record_roundtrip`, with keys and certificates
modelled as numbers and singleton byte encodings. -/
theorem persisted_record_roundtrip_witness :
    ((⟨"acct", some 7⟩ : AccountData Nat).marshalJSON (fun k => some [k])).bind
        (AccountData.unmarshalJSON (fun l => match l with | [k] => some k | _ => none))
      = some ⟨"acct", some 7⟩
    ∧ ((⟨"crt", [⟨"dns", "x"⟩], 3, some 9, [1, 2]⟩ :
          CertificateData Nat Nat).marshalJSON (fun k => some [k])
            (fun c => [c])).bind
        (CertificateData.unmarshalJSON
          (fun l => match l with | [k] => some k | _ => none)
          (fun l => match l with | [c] => some c | _ => none))
      = some ⟨"crt", [⟨"dns", "x"⟩], 3, some 9, [1, 2]⟩ := by
  have h := persisted_record_roundtrip
    (fun k : Nat => some [k])
    (fun l : List Nat => match l with | [k] => some k | _ => none)
    (fun c : Nat => [c])
    (fun l : List Nat => match l with | [c] => some c | _ => none)
    ⟨"acct", some 7⟩ ⟨"crt", [⟨"dns", "x"⟩], 3, some 9, [1, 2]⟩ 7 [7] 9 [9]
  exact ⟨h.1 rfl rfl rfl, h.2 rfl rfl rfl (by decide)⟩

end GoAcme
